import Mathlib

/-!
Verification of the optees core against its natural-language specification.

Shallow embedding of:
- `src/optees/utility/knapsack_utils.py` (`solve_knapsack_01`),
- `src/optees/utility/milp_utils.py` (`_normalize`, `_is_int_like`,
  `_all_data_integer`, `_needs_cbc`, `_pack_result`, and the result-packaging
  tail of `_solve_mip_cbc_mixed`),
- `src/optees/utility/data_adapters/lpnetlib_adapter.py`
  (`load_lpnetlib_mat`, modelled from the resolved `.mat` fields on),
- `src/optees/utility/data_adapters/miplib_solu.py` (the permissive
  fallback branch of `parse_miplib_solu`).

Python floats are modelled as rationals (`ℚ`); machine integers as `ℕ`/`ℤ`;
raising `ValueError` as `Except.error`.
-/

/-- Decidable equality for `Except`, used to evaluate the embedded fallible
functions on closed inputs. -/
instance instDecEqExcept {ε α : Type} [DecidableEq ε] [DecidableEq α] :
    DecidableEq (Except ε α) := fun a b =>
  match a, b with
  | .error x, .error y =>
    if h : x = y then .isTrue (congrArg Except.error h)
    else .isFalse fun c => h ((Except.error.injEq _ _).mp c)
  | .error _, .ok _ => .isFalse fun c => Except.noConfusion c
  | .ok _, .error _ => .isFalse fun c => Except.noConfusion c
  | .ok x, .ok y =>
    if h : x = y then .isTrue (congrArg Except.ok h)
    else .isFalse fun c => h ((Except.ok.injEq _ _).mp c)

namespace Optees

/-! ## Knapsack: `solve_knapsack_01` (knapsack_utils.py) -/

namespace Knapsack

/-- Total value of a selection of (value, weight) items. -/
def vsum (s : List (ℚ × ℕ)) : ℚ := (s.map Prod.fst).sum

/-- Total weight of a selection of (value, weight) items. -/
def wsum (s : List (ℚ × ℕ)) : ℕ := (s.map Prod.snd).sum

/-- The DP table of `solve_knapsack_01` (lines 86-99):
`dp vals wts i w` is `dp[i][w]`, the best value achievable using the first
`i` items within capacity `w`.  The Python inner loop computes
`best = dp[i-1][w]; if w_i <= w: cand = dp[i-1][w-w_i] + v_i;
 if cand > best: best = cand`. -/
def dp (vals : List ℚ) (wts : List ℕ) : ℕ → ℕ → ℚ
  | 0, _ => 0
  | i + 1, w =>
    let v := vals.getD i 0
    let wt := wts.getD i 0
    let best := dp vals wts i w
    if wt ≤ w then
      let cand := dp vals wts i (w - wt) + v
      if best < cand then cand else best
    else best

/-- The reconstruction loop of `solve_knapsack_01` (lines 104-111) before the
final `selected.reverse()`: iterating `i` from `n` down to `1`, item `i-1` is
appended when `dp[i][w] != dp[i-1][w]`, and then `w -= w_ints[i-1]`.
`selDesc vals wts i w` is the list `selected` built by the loop iterations
`i, i-1, ..., 1` starting from residual capacity `w` (indices in descending
order, as in the Python list before reversal). -/
def selDesc (vals : List ℚ) (wts : List ℕ) : ℕ → ℕ → List ℕ
  | 0, _ => []
  | i + 1, w =>
    if dp vals wts (i + 1) w ≠ dp vals wts i w then
      i :: selDesc vals wts i (w - wts.getD i 0)
    else
      selDesc vals wts i w

/-- Weight-normalization loop of `solve_knapsack_01` (lines 74-83): every
weight must be integer-valued (a rational is integer-valued iff its
denominator is 1, mirroring `float.is_integer`); integral weights are
converted with `int(w)`.  Only reached after the non-negativity check, so
`Int.toNat` agrees with Python `int`. -/
def toIntWeights : List ℚ → Except String (List ℕ)
  | [] => .ok []
  | w :: rest =>
    if w.den = 1 then
      match toIntWeights rest with
      | .ok t => .ok (w.num.toNat :: t)
      | .error e => .error e
    else .error "weights must be integers."

/-- `solve_knapsack_01(values, weights, capacity)` (lines 24-113).
Checks in source order: length mismatch; `capacity < 0`; the
`n == 0 or capacity == 0` early return; negative weights; capacity
integrality (`float.is_integer`, i.e. denominator 1); weight integrality.
Then the DP table and the reconstruction, returning
`(dp[n][capacity], selected.reverse())`. -/
def solve_knapsack_01 (values weights : List ℚ) (capacity : ℚ) :
    Except String (ℚ × List ℕ) :=
  if values.length ≠ weights.length then
    .error "values and weights must have the same length."
  else if capacity < 0 then
    .error "capacity must be at least 0."
  else if values.length = 0 ∨ capacity = 0 then
    .ok (0, [])
  else if weights.any (fun w => decide (w < 0)) then
    .error "weights must be non-negative."
  else if capacity.den ≠ 1 then
    .error "capacity must be an integer."
  else
    match toIntWeights weights with
    | .error e => .error e
    | .ok wInts =>
      let n := values.length
      let cap := capacity.num.toNat
      .ok (dp values wInts n cap, (selDesc values wInts n cap).reverse)

/-- Binary maximum on `ℚ`, written out so that the kernel can evaluate it on
closed inputs (the `Lattice`-derived `max` does not reduce). -/
def qmax (a b : ℚ) : ℚ := if a ≤ b then b else a

theorem qmax_eq_max (a b : ℚ) : qmax a b = max a b := (max_def a b).symm

/-- Brute-force reference: the maximum, over all sublists (subsets) of the
(value, weight) item list whose total weight is at most the capacity, of the
subset total value.  The empty subset always qualifies, so the fold base 0 is
itself one of the candidates. -/
def bruteForce (items : List (ℚ × ℕ)) (cap : ℕ) : ℚ :=
  ((items.sublists.filter fun s => decide (wsum s ≤ cap)).map vsum).foldr qmax 0

end Knapsack

/-- Model of Python `str.lower()` (= `String.toLower`): lower-case every
character.  Written over the underlying character list so that the kernel
can evaluate it on literals. -/
def pyLower (s : String) : String := ⟨s.data.map Char.toLower⟩

/-! ## MILP router: milp_utils.py -/

namespace Milp

/-- Integrality marker of a normalized problem: `'B'`, `'I'` or `None`
(continuous) in the Python dict; `_normalize` maps the raw token `'C'` to
`None`, modelled here as `Integ.C`. -/
inductive Integ where
  | B
  | I
  | C
deriving DecidableEq

/-- The normalized problem dict produced by `_normalize` (milp_utils.py,
lines 135-143).  Python floats are rationals; absent optional entries are
`none`. -/
structure CanonProblem where
  sense : String
  c : List ℚ
  integrality : List Integ
  bounds : List (Option ℚ × Option ℚ)
  var_names : List String
  A_eq : Option (List (List ℚ))
  b_eq : Option (List ℚ)
  A_ub : Option (List (List ℚ))
  b_ub : Option (List ℚ)
  obj_offset : ℚ
deriving DecidableEq

/-- The raw problem mapping accepted by `solve_milp`.  A key that is absent
or holds Python `None` is `none`; integrality entries may themselves be
`None` (continuous), hence `Option String`. -/
structure RawProblem where
  sense : Option String
  c : List ℚ
  integrality : Option (List (Option String))
  bounds : Option (List (Option ℚ × Option ℚ))
  var_names : Option (List String)
  A_eq : Option (List (List ℚ))
  b_eq : Option (List ℚ)
  A_ub : Option (List (List ℚ))
  b_ub : Option (List ℚ)
  obj_offset : Option ℚ
deriving DecidableEq

/-- One iteration of the integrality-token loop of `_normalize`
(lines 107-114): `'B'` and `'I'` are kept, `None` stays `None`, `'C'`
becomes `None`, anything else raises. -/
def normToken (t : Option String) : Except String Integ :=
  match t with
  | none => .ok Integ.C
  | some s =>
    if s = "B" then .ok Integ.B
    else if s = "I" then .ok Integ.I
    else if s = "C" then .ok Integ.C
    else .error "Unknown integrality token"

/-- The integrality-token loop of `_normalize`; raises at the first unknown
token, as the Python `for` loop does. -/
def normTokens : List (Option String) → Except String (List Integ)
  | [] => .ok []
  | t :: rest =>
    match normToken t with
    | .error e => .error e
    | .ok tk =>
      match normTokens rest with
      | .error e => .error e
      | .ok ts => .ok (tk :: ts)

/-- Default variable names `x0 .. x(n-1)`. -/
def defaultNames (n : ℕ) : List String :=
  (List.range n).map fun i => "x" ++ toString i

/-- `_normalize(problem)` (milp_utils.py lines 95-143), in source order:
`sense = (problem.get("sense", "min") or "min").lower()` (so an absent,
`None` or empty sense falls back to `"min"`), the sense check, the
integrality length check and token loop, the bounds length check (default
`[(0, None)] * n`), `var_names` via `problem.get("var_names") or [f"x{i}"...]`
(so an absent, `None` or *empty* list falls back to the defaults), and the
two xor presence checks on (A_eq, b_eq) and (A_ub, b_ub). -/
def _normalize (p : RawProblem) : Except String CanonProblem :=
  let sense := pyLower (match p.sense with
    | none => "min"
    | some s => if s = "" then "min" else s)
  if sense ≠ "min" ∧ sense ≠ "max" then .error "sense must be min or max"
  else
    let n := p.c.length
    let integIn := p.integrality.getD (List.replicate n none)
    if integIn.length ≠ n then .error "len integrality must match len c"
    else
      match normTokens integIn with
      | .error e => .error e
      | .ok integrality =>
        let boundsRes : Except String (List (Option ℚ × Option ℚ)) :=
          match p.bounds with
          | none => .ok (List.replicate n (some 0, none))
          | some bl =>
            if bl.length ≠ n then .error "len bounds must match len c"
            else .ok bl
        match boundsRes with
        | .error e => .error e
        | .ok bounds =>
          let names := match p.var_names with
            | none => defaultNames n
            | some l => if l = [] then defaultNames n else l
          if names.length ≠ n then .error "len var names must match len c"
          else if p.A_eq.isNone ≠ p.b_eq.isNone then
            .error "A eq and b eq must be both present or both absent"
          else if p.A_ub.isNone ≠ p.b_ub.isNone then
            .error "A ub and b ub must be both present or both absent"
          else .ok { sense := sense, c := p.c, integrality := integrality,
                     bounds := bounds, var_names := names,
                     A_eq := p.A_eq, b_eq := p.b_eq,
                     A_ub := p.A_ub, b_ub := p.b_ub,
                     obj_offset := p.obj_offset.getD 0 }

/-- `_is_int_like(x, tol=1e-9)` (lines 246-248): |x - round(x)| <= 1e-9.
Python `round` is round-half-to-even while Lean `round` is round-half-up;
they pick different integers only at exact half-integers, where the distance
is 1/2 on either side, far above the tolerance, so the Boolean outcome is
identical. -/
def _is_int_like (x : ℚ) : Bool := decide (|x - round x| ≤ 1 / 1000000000)

/-- `_all_data_integer(P)` (lines 250-270): every objective coefficient,
every finite bound, and, for each constraint block that is present, every
matrix coefficient and right-hand side, is integer-valued within 1e-9.
(The Python code inspects `b_eq`/`b_ub` only under the `A_eq is not None` /
`A_ub is not None` guards; a half-present pair cannot reach this function
through `_normalize`.) -/
def _all_data_integer (P : CanonProblem) : Bool :=
  P.c.all _is_int_like &&
  P.bounds.all (fun b =>
    (match b.1 with | none => true | some lv => _is_int_like lv) &&
    (match b.2 with | none => true | some uv => _is_int_like uv)) &&
  (match P.A_eq with
   | none => true
   | some A => A.all (fun row => row.all _is_int_like) &&
       (match P.b_eq with | none => true | some bv => bv.all _is_int_like)) &&
  (match P.A_ub with
   | none => true
   | some A => A.all (fun row => row.all _is_int_like) &&
       (match P.b_ub with | none => true | some bv => bv.all _is_int_like))

/-- `_needs_cbc(P)` (lines 272-278): some variable is continuous (its marker
is neither `'B'` nor `'I'`), or some datum fails the integer-likeness
check. -/
def _needs_cbc (P : CanonProblem) : Bool :=
  (P.integrality.any fun t => !(t == Integ.B || t == Integ.I)) ||
  !_all_data_integer P

/-- The two backends `solve_milp` routes to. -/
inductive Backend where
  | cpsat
  | cbc
deriving DecidableEq

/-- The routing decision of `solve_milp` (lines 14-21): CBC when
`_needs_cbc`, else CP-SAT. -/
def routeOf (P : CanonProblem) : Backend :=
  if _needs_cbc P then Backend.cbc else Backend.cpsat

/-- CP-SAT status code `cp_model.OPTIMAL`. -/
def CP_OPTIMAL : ℕ := 4

/-- CP-SAT status code `cp_model.INFEASIBLE`. -/
def CP_INFEASIBLE : ℕ := 3

/-- The observable outputs of the opaque CP-SAT solver that `_pack_result`
consumes: `solver.ObjectiveValue()` and `solver.Value(v)` for each variable
(in the order of `xs`, which matches `var_names`). -/
structure CpOut where
  objectiveValue : ℚ
  values : List ℚ
deriving DecidableEq

/-- `_pack_result(solver, status_code, xs, P)` (lines 211-244), minus the
`extras` diagnostics dict: the four-way status mapping (OPTIMAL ->
"Optimal", INFEASIBLE -> "Infeasible", everything else -> "NotSolved"),
the assignment `var_names[i] -> solver.Value(xs[i])` populated only when
optimal, and `obj = solver.ObjectiveValue() + P["obj_offset"]` only when
optimal. -/
def _pack_result (out : CpOut) (status_code : ℕ) (P : CanonProblem) :
    String × Option ℚ × List (String × ℚ) :=
  let status := if status_code = CP_OPTIMAL then "Optimal"
    else if status_code = CP_INFEASIBLE then "Infeasible"
    else "NotSolved"
  if status = "Optimal" then
    (status, some (out.objectiveValue + P.obj_offset), P.var_names.zip out.values)
  else (status, none, [])

/-- `pywraplp` result status `Solver.OPTIMAL`. -/
def CBC_OPTIMAL : ℕ := 0

/-- `pywraplp` result status `Solver.INFEASIBLE`. -/
def CBC_INFEASIBLE : ℕ := 2

/-- `pywraplp` result status `Solver.UNBOUNDED`. -/
def CBC_UNBOUNDED : ℕ := 3

/-- The result-packaging tail of `_solve_mip_cbc_mixed` (lines 74-93), as a
function of the opaque CBC backend outputs: the `res` status code, the
reported `solver.Objective().Value()`, and the per-variable
`solution_value()`s.  Note the returned `obj` is the backend objective
alone; `P["obj_offset"]` is not consulted anywhere in this function. -/
def cbcPack (res : ℕ) (objectiveValue : ℚ) (solutionValues : List ℚ)
    (P : CanonProblem) : String × Option ℚ × List (String × ℚ) :=
  let status := if res = CBC_OPTIMAL then "Optimal"
    else if res = CBC_INFEASIBLE then "Infeasible"
    else if res = CBC_UNBOUNDED then "Unbounded"
    else "NotSolved"
  if status = "Optimal" then
    (status, some objectiveValue, P.var_names.zip solutionValues)
  else (status, none, [])

/-- The data the routing claim ranges over, following the spec: "some
objective coefficient, finite bound, matrix coefficient, or right-hand-side
entry". -/
def problemData (P : CanonProblem) : List ℚ :=
  P.c ++ (P.bounds.flatMap fun b => b.1.toList ++ b.2.toList)
    ++ ((P.A_eq.getD []).flatMap id) ++ P.b_eq.getD []
    ++ ((P.A_ub.getD []).flatMap id) ++ P.b_ub.getD []

/-- Modelled from the spec (amended for the `var_names` falsy default and
the sense fallback): the pre-flight invariants `_normalize` enforces; used
to state that normalization succeeds only when they hold. -/
def normCheckSpec (p : RawProblem) : Bool :=
  let sense := pyLower (match p.sense with
    | none => "min"
    | some s => if s = "" then "min" else s)
  (sense == "min" || sense == "max") &&
  (match p.integrality with | none => true | some l => l.length == p.c.length) &&
  (match p.bounds with | none => true | some l => l.length == p.c.length) &&
  (match p.var_names with
   | none => true
   | some l => l == ([] : List String) || l.length == p.c.length) &&
  (p.A_eq.isNone == p.b_eq.isNone) && (p.A_ub.isNone == p.b_ub.isNone)

/-- A normalized single-variable continuous problem (`minimize x, x >= 0`)
with objective offset 5; routed to CBC because of the continuous marker. -/
def Pcont : CanonProblem :=
  { sense := "min", c := [1], integrality := [Integ.C],
    bounds := [(some 0, none)], var_names := ["x0"],
    A_eq := none, b_eq := none, A_ub := none, b_ub := none, obj_offset := 5 }

/-- A normalized all-binary problem whose single objective coefficient is
the non-integer 1/2. -/
def Phalf : CanonProblem :=
  { sense := "min", c := [1 / 2], integrality := [Integ.B],
    bounds := [(some 0, some 1)], var_names := ["x0"],
    A_eq := none, b_eq := none, A_ub := none, b_ub := none, obj_offset := 0 }

/-- A raw problem with one objective coefficient and an explicitly *empty*
`var_names` list (whose length 0 differs from `len(c) = 1`). -/
def rawEmptyVn : RawProblem :=
  { sense := none, c := [1], integrality := none, bounds := none,
    var_names := some [], A_eq := none, b_eq := none, A_ub := none,
    b_ub := none, obj_offset := none }

end Milp

/-! ## LPnetlib adapter: lpnetlib_adapter.py -/

namespace Lpnetlib

/-- An entry of a MATLAB bound vector: minus infinity, a finite value, or
plus infinity (`np.isfinite` distinguishes exactly the middle case). -/
inductive XR where
  | ninf
  | fin (q : ℚ)
  | pinf
deriving DecidableEq

/-- `np.isfinite` on an entry. -/
def XR.isFinite : XR → Bool
  | .fin _ => true
  | _ => false

/-- The rational value of a finite entry (junk 0 on infinities; only applied
to entries already known finite). -/
def XR.val : XR → ℚ
  | .fin q => q
  | _ => 0

/-- The fields of a `.mat` file after `loadmat` and the alias-based field
resolution of `load_lpnetlib_mat` (lines 102-135): coefficient matrix `A`
(dense row-major model of the CSR matrix, `m = A.length` rows, `n` columns),
objective `c`, optional rhs `b`, optional row bounds `rl`/`ru`, optional
variable bounds `lo`/`hi`, and the optional objective constant `z0`.
`z0 = some (some q)` models a present value that `float(np.asarray(z0).ravel()[0])`
converts to `q`; `z0 = some none` models a present value whose conversion
raises (the documented non-fatal case); `none` models an absent field. -/
structure MatData where
  A : List (List ℚ)
  n : ℕ
  c : List ℚ
  b : Option (List ℚ)
  rl : Option (List XR)
  ru : Option (List XR)
  lo : Option (List XR)
  hi : Option (List XR)
  z0 : Option (Option ℚ)
deriving DecidableEq

/-- The canonical problem dict returned by `load_lpnetlib_mat` (module
docstring, lines 11-23), minus the metadata entry. -/
structure LPProblem where
  sense : String
  c : List ℚ
  bounds : List (Option ℚ × Option ℚ)
  var_names : List String
  A_eq : Option (List (List ℚ))
  b_eq : Option (List ℚ)
  A_ub : Option (List (List ℚ))
  b_ub : Option (List ℚ)
  obj_offset : Option ℚ
deriving DecidableEq

/-- `is_eq` for one row (line 176): both bounds finite and
`|rl - ru| <= eq_tol`. -/
def rowIsEq (tol : ℚ) (lo hi : XR) : Bool :=
  lo.isFinite && hi.isFinite && decide (|lo.val - hi.val| ≤ tol)

/-- `rl_vec` (line 170): the row lower bounds, `-inf`-filled when absent. -/
def rlVec (d : MatData) : List XR :=
  d.rl.getD (List.replicate d.A.length XR.ninf)

/-- `ru_vec` (line 171): the row upper bounds, `+inf`-filled when absent. -/
def ruVec (d : MatData) : List XR :=
  d.ru.getD (List.replicate d.A.length XR.pinf)

/-- `eq_idx` (line 177): rows classified as equalities. -/
def eqIdx (d : MatData) (tol : ℚ) : List ℕ :=
  (List.range d.A.length).filter fun i =>
    rowIsEq tol ((rlVec d).getD i XR.ninf) ((ruVec d).getD i XR.pinf)

/-- `le_idx` (line 183): finite upper row bound, not an equality. -/
def leIdx (d : MatData) (tol : ℚ) : List ℕ :=
  (List.range d.A.length).filter fun i =>
    ((ruVec d).getD i XR.pinf).isFinite &&
    !rowIsEq tol ((rlVec d).getD i XR.ninf) ((ruVec d).getD i XR.pinf)

/-- `ge_idx` (line 189): finite lower row bound, not an equality. -/
def geIdx (d : MatData) (tol : ℚ) : List ℕ :=
  (List.range d.A.length).filter fun i =>
    ((rlVec d).getD i XR.ninf).isFinite &&
    !rowIsEq tol ((rlVec d).getD i XR.ninf) ((ruVec d).getD i XR.pinf)

/-- `load_lpnetlib_mat` from the resolved fields up to (but not including)
the optional `obj_offset` attachment (lines 134-222): size checks, variable
bounds with `[0, +inf)` default, the `rl`/`ru` row partitioning (equality
block, `<=` block, negated `>=` block, stacked in that order), else the
`Ax = b` equality system, else no row constraints. -/
def loadCore (d : MatData) (tol : ℚ) : Except String LPProblem :=
  if d.c.length ≠ d.n then .error "Inconsistent sizes: len c differs from n"
  else
    let m := d.A.length
    let lo := d.lo.getD (List.replicate d.n (XR.fin 0))
    let hi := d.hi.getD (List.replicate d.n XR.pinf)
    if lo.length ≠ d.n ∨ hi.length ≠ d.n then
      .error "Inconsistent variable bounds"
    else
      let bounds := (lo.zip hi).map fun p =>
        ((if p.1.isFinite then some p.1.val else none),
         (if p.2.isFinite then some p.2.val else none))
      let var_names := (List.range d.n).map fun i => "x" ++ toString i
      if d.rl.isSome ∨ d.ru.isSome then
        if (rlVec d).length ≠ m ∨ (ruVec d).length ≠ m then
          .error "Inconsistent row bounds"
        else
          let eqs := eqIdx d tol
          let les := leIdx d tol
          let ges := geIdx d tol
          let ubRows := les.map (fun i => d.A.getD i []) ++
            ges.map fun i => (d.A.getD i []).map Neg.neg
          let ubVals := les.map (fun i => ((ruVec d).getD i XR.pinf).val) ++
            ges.map fun i => -((rlVec d).getD i XR.ninf).val
          .ok { sense := "min", c := d.c, bounds := bounds,
                var_names := var_names,
                A_eq := if eqs = [] then none else some (eqs.map fun i => d.A.getD i []),
                b_eq := if eqs = [] then none
                  else some (eqs.map fun i => ((ruVec d).getD i XR.pinf).val),
                A_ub := if les = [] ∧ ges = [] then none else some ubRows,
                b_ub := if les = [] ∧ ges = [] then none else some ubVals,
                obj_offset := none }
      else
        match d.b with
        | some bv =>
          if bv.length ≠ m then .error "Inconsistent sizes: len b differs from m"
          else .ok { sense := "min", c := d.c, bounds := bounds,
                     var_names := var_names,
                     A_eq := some d.A, b_eq := some bv,
                     A_ub := none, b_ub := none, obj_offset := none }
        | none =>
          .ok { sense := "min", c := d.c, bounds := bounds,
                var_names := var_names, A_eq := none, b_eq := none,
                A_ub := none, b_ub := none, obj_offset := none }

/-- The `obj_offset` attachment (lines 223-228): a present and convertible
`z0` is stored; a present but malformed `z0` is silently dropped
(`except: pass`); an absent `z0` adds nothing. -/
def z0Offset : Option (Option ℚ) → Option ℚ
  | some (some q) => some q
  | _ => none

/-- `load_lpnetlib_mat(path, eq_tol)` (lines 77-230) from the resolved
fields: the core load followed by the optional `obj_offset` attachment. -/
def load_lpnetlib_mat (d : MatData) (tol : ℚ) : Except String LPProblem :=
  (loadCore d tol).map fun P => { P with obj_offset := z0Offset d.z0 }

/-- Number of constraint rows emitted across `A_eq` and `A_ub`. -/
def emittedRows (P : LPProblem) : ℕ :=
  (P.A_eq.getD []).length + (P.A_ub.getD []).length

/-- `emittedRows` through an `Except` result (0 when the load failed). -/
def emittedOf (r : Except String LPProblem) : ℕ :=
  match r with
  | .ok P => emittedRows P
  | .error _ => 0

/-- Rows with both bounds finite but not close enough to be an equality:
these are emitted twice (once in the `<=` block, once negated in the `>=`
block). -/
def rangeCount (d : MatData) (tol : ℚ) : ℕ :=
  (List.range d.A.length).countP fun i =>
    ((rlVec d).getD i XR.ninf).isFinite &&
    ((ruVec d).getD i XR.pinf).isFinite &&
    !rowIsEq tol ((rlVec d).getD i XR.ninf) ((ruVec d).getD i XR.pinf)

/-- Rows with no finite bound: these are emitted zero times. -/
def freeCount (d : MatData) : ℕ :=
  (List.range d.A.length).countP fun i =>
    !((rlVec d).getD i XR.ninf).isFinite &&
    !((ruVec d).getD i XR.pinf).isFinite

/-- A one-row instance whose row is a two-sided range `0 <= x <= 5`:
both bounds finite, not an equality. -/
def dRange : MatData :=
  { A := [[1]], n := 1, c := [1], b := none,
    rl := some [XR.fin 0], ru := some [XR.fin 5],
    lo := none, hi := none, z0 := none }

/-- A one-row equality instance (`x = 3`) with no `z0` field. -/
def dEq : MatData :=
  { A := [[1]], n := 1, c := [1], b := none,
    rl := some [XR.fin 3], ru := some [XR.fin 3],
    lo := none, hi := none, z0 := none }

/-- A one-row instance whose row is free (`-inf <= x <= +inf`): neither
bound finite. -/
def dFree : MatData :=
  { A := [[1]], n := 1, c := [1], b := none,
    rl := some [XR.ninf], ru := some [XR.pinf],
    lo := none, hi := none, z0 := none }

end Lpnetlib

/-! ## MIPLIB .solu parser: miplib_solu.py -/

namespace Solu

/-- `_STATUS_KEYS` (line 5). -/
def STATUS_KEYS : List String :=
  ["optimal", "infeasible", "unbounded", "best", "feasible", "limit", "unknown"]

/-- The permissive fallback branch of `parse_miplib_solu` (lines 30-54) on
one already-split line (a non-blank, non-comment line that did not match the
tagged `v31` grammar): find the first token whose lowercase form is a status
key (else skip); the name is the token before it if one exists, else the
token after it, and a falsy (absent or empty) name skips the line; the
objective is the first token, scanning from the end, that `float(...)`
accepts.  `parseNum` is the opaque model of Python `float` parsing.  Returns
`(name, status, objective)` for `out[name] = (status, obj)`, or `none` when
the line is skipped. -/
def fallbackLine (parseNum : String → Option ℚ) (parts : List String) :
    Option (String × String × Option ℚ) :=
  match parts.findIdx? (fun tok => STATUS_KEYS.contains (pyLower tok)) with
  | none => none
  | some idx =>
    let status := pyLower (parts.getD idx "")
    let name : Option String :=
      if 0 < idx then some (parts.getD (idx - 1) "")
      else if idx + 1 < parts.length then some (parts.getD (idx + 1) "")
      else none
    match name with
    | none => none
    | some nm =>
      if nm = "" then none
      else some (nm, status, parts.reverse.findSome? parseNum)

/-- Modelled from the spec: the fallback grammar as the claim words it —
first status-vocabulary token (lowercased) as status, the token immediately
before it (else the one immediately after) as name, skipping when neither
exists, and the last token on the line parseable as a number as the
objective. -/
def fallbackLineSpec (parseNum : String → Option ℚ) (parts : List String) :
    Option (String × String × Option ℚ) :=
  match parts.findIdx? (fun tok => STATUS_KEYS.contains (pyLower tok)) with
  | none => none
  | some idx =>
    match ((parts.take idx).getLast?).orElse (fun _ => (parts.drop (idx + 1)).head?) with
    | none => none
    | some nm =>
      some (nm, pyLower (parts.getD idx ""), (parts.filterMap parseNum).getLast?)

end Solu

end Optees

namespace Optees.Knapsack

example : bruteForce [((3:ℚ), 2), (4, 3), (5, 4), (6, 5)] 5 = 7 := by
  norm_num [bruteForce, vsum, wsum, qmax, List.sublists]

example : solve_knapsack_01 [(3:ℚ), 4, 5, 6] [2, 3, 4, 5] 5 =
    .ok (7, [0, 1]) := by
  norm_num [solve_knapsack_01, toIntWeights, dp, selDesc]

example : solve_knapsack_01 [(1:ℚ)] [-1] 0 = .ok (0, []) := by decide

example : bruteForce [((5:ℚ), 0)] 0 = 5 := by
  norm_num [bruteForce, vsum, wsum, qmax]

example : solve_knapsack_01 [(5:ℚ)] [0] 0 = .ok (0, []) := by decide

/-! ### Knapsack lemmas -/

theorem dp_le_succ (vals : List ℚ) (wts : List ℕ) (i w : ℕ) :
    dp vals wts i w ≤ dp vals wts (i + 1) w := by
  simp only [dp]
  split
  · split
    · exact le_of_lt (by assumption)
    · exact le_refl _
  · exact le_refl _

theorem dp_nonneg (vals : List ℚ) (wts : List ℕ) (i w : ℕ) :
    0 ≤ dp vals wts i w := by
  induction i with
  | zero => simp [dp]
  | succ i ih => exact le_trans ih (dp_le_succ vals wts i w)

theorem cand_le_dp_succ (vals : List ℚ) (wts : List ℕ) (i w : ℕ)
    (h : wts.getD i 0 ≤ w) :
    dp vals wts i (w - wts.getD i 0) + vals.getD i 0 ≤ dp vals wts (i + 1) w := by
  simp only [dp, if_pos h]
  split
  · exact le_refl _
  · exact le_of_not_lt (by assumption)

theorem wsum_append (s t : List (ℚ × ℕ)) : wsum (s ++ t) = wsum s + wsum t := by
  simp [wsum]

theorem vsum_append (s t : List (ℚ × ℕ)) : vsum (s ++ t) = vsum s + vsum t := by
  simp [vsum]

theorem zip_take_succ (vals : List ℚ) (wts : List ℕ)
    (hlen : vals.length = wts.length) (i : ℕ) (hi : i < vals.length) :
    (vals.zip wts).take (i + 1) =
      (vals.zip wts).take i ++ [(vals.getD i 0, wts.getD i 0)] := by
  have hzl : i < (vals.zip wts).length := by
    rw [List.length_zip]; omega
  have hiw : i < wts.length := by omega
  rw [List.take_succ, List.getElem?_eq_getElem hzl]
  rw [List.getD_eq_getElem vals 0 hi, List.getD_eq_getElem wts 0 hiw]
  simp [List.getElem_zip]

theorem dp_ge_sublist (vals : List ℚ) (wts : List ℕ)
    (hlen : vals.length = wts.length) :
    ∀ i, i ≤ vals.length → ∀ w s, s.Sublist ((vals.zip wts).take i) →
      wsum s ≤ w → vsum s ≤ dp vals wts i w := by
  intro i
  induction i with
  | zero =>
    intro _ w s hs _
    rw [List.take_zero, List.sublist_nil] at hs
    subst hs
    simp [vsum, dp]
  | succ i ih =>
    intro hle w s hs hw
    have hi : i < vals.length := by omega
    rw [zip_take_succ vals wts hlen i hi] at hs
    rcases List.sublist_append_iff.mp hs with ⟨s1, s2, rfl, hs1, hs2⟩
    rcases List.sublist_singleton.mp hs2 with rfl | rfl
    · rw [List.append_nil]
      rw [List.append_nil] at hw
      exact le_trans (ih (by omega) w s1 hs1 hw) (dp_le_succ vals wts i w)
    · rw [wsum_append] at hw
      rw [vsum_append]
      simp only [wsum, vsum, List.map_cons, List.map_nil, List.sum_cons,
        List.sum_nil] at hw ⊢
      have hwt : wts.getD i 0 ≤ w := by omega
      have hs1w : wsum s1 ≤ w - wts.getD i 0 := by
        simp only [wsum]; omega
      have h1 := ih (by omega) (w - wts.getD i 0) s1 hs1 hs1w
      have h2 := cand_le_dp_succ vals wts i w hwt
      have : vsum s1 + vals.getD i 0 ≤ dp vals wts i (w - wts.getD i 0) + vals.getD i 0 := by
        linarith
      simp only [vsum] at this
      linarith

theorem dp_achieved (vals : List ℚ) (wts : List ℕ)
    (hlen : vals.length = wts.length) :
    ∀ i, i ≤ vals.length → ∀ w, ∃ s, s.Sublist ((vals.zip wts).take i) ∧
      wsum s ≤ w ∧ vsum s = dp vals wts i w := by
  intro i
  induction i with
  | zero =>
    intro _ w
    exact ⟨[], by simp, by simp [wsum], by simp [vsum, dp]⟩
  | succ i ih =>
    intro hle w
    have hi : i < vals.length := by omega
    have htk := zip_take_succ vals wts hlen i hi
    by_cases hwt : wts.getD i 0 ≤ w
    · by_cases hc : dp vals wts i w < dp vals wts i (w - wts.getD i 0) + vals.getD i 0
      · obtain ⟨s1, hs1, hw1, hv1⟩ := ih (by omega) (w - wts.getD i 0)
        refine ⟨s1 ++ [(vals.getD i 0, wts.getD i 0)], ?_, ?_, ?_⟩
        · rw [htk]
          exact List.Sublist.append hs1 (List.Sublist.refl _)
        · rw [wsum_append]
          simp only [wsum, List.map_cons, List.map_nil, List.sum_cons, List.sum_nil]
          simp only [wsum] at hw1
          omega
        · rw [vsum_append, hv1]
          simp only [vsum, List.map_cons, List.map_nil, List.sum_cons, List.sum_nil]
          simp only [dp, if_pos hwt, if_pos hc]
          ring
      · obtain ⟨s1, hs1, hw1, hv1⟩ := ih (by omega) w
        refine ⟨s1, ?_, hw1, ?_⟩
        · rw [htk]
          exact hs1.trans (List.sublist_append_left _ _)
        · rw [hv1]
          simp only [dp, if_pos hwt, if_neg hc]
    · obtain ⟨s1, hs1, hw1, hv1⟩ := ih (by omega) w
      refine ⟨s1, ?_, hw1, ?_⟩
      · rw [htk]
        exact hs1.trans (List.sublist_append_left _ _)
      · rw [hv1]
        simp only [dp, if_neg hwt]

theorem le_foldr_qmax {l : List ℚ} {x : ℚ} (hx : x ∈ l) : x ≤ l.foldr qmax 0 := by
  induction l with
  | nil => simp at hx
  | cons a t ih =>
    simp only [List.foldr_cons, qmax_eq_max]
    rcases List.mem_cons.mp hx with rfl | hx
    · exact le_max_left _ _
    · exact le_trans (ih hx) (le_max_right _ _)

theorem foldr_qmax_le {l : List ℚ} {b : ℚ} (hb : 0 ≤ b) (h : ∀ x ∈ l, x ≤ b) :
    l.foldr qmax 0 ≤ b := by
  induction l with
  | nil => simpa using hb
  | cons a t ih =>
    simp only [List.foldr_cons, qmax_eq_max]
    exact max_le (h a (List.mem_cons_self a t)) (ih fun x hx => h x (List.mem_cons_of_mem a hx))

theorem dp_eq_bruteForce (vals : List ℚ) (wts : List ℕ)
    (hlen : vals.length = wts.length) (cap : ℕ) :
    dp vals wts vals.length cap = bruteForce (vals.zip wts) cap := by
  have hzlen : (vals.zip wts).length = vals.length := by
    rw [List.length_zip]; omega
  have htk : (vals.zip wts).take vals.length = vals.zip wts := by
    rw [← hzlen, List.take_length]
  apply le_antisymm
  · obtain ⟨s, hs, hw, hv⟩ := dp_achieved vals wts hlen vals.length (le_refl _) cap
    rw [htk] at hs
    rw [← hv]
    apply le_foldr_qmax
    apply List.mem_map_of_mem
    rw [List.mem_filter]
    exact ⟨List.mem_sublists.mpr hs, decide_eq_true hw⟩
  · apply foldr_qmax_le (dp_nonneg vals wts vals.length cap)
    intro x hx
    rcases List.mem_map.mp hx with ⟨s, hsf, rfl⟩
    rcases List.mem_filter.mp hsf with ⟨hsub, hwle⟩
    have hs : s.Sublist (vals.zip wts) := List.mem_sublists.mp hsub
    have hw : wsum s ≤ cap := of_decide_eq_true hwle
    exact dp_ge_sublist vals wts hlen vals.length (le_refl _) cap s
      (by rw [htk]; exact hs) hw

theorem toIntWeights_natCast (l : List ℕ) :
    toIntWeights (l.map (Nat.cast : ℕ → ℚ)) = .ok l := by
  induction l with
  | nil => rfl
  | cons a t ih =>
    simp only [List.map_cons, toIntWeights]
    rw [if_pos (by simp), ih]
    simp

theorem toIntWeights_ok (l : List ℚ) (h : ∀ w ∈ l, w.den = 1) :
    ∃ t, toIntWeights l = .ok t := by
  induction l with
  | nil => exact ⟨[], rfl⟩
  | cons a t ih =>
    obtain ⟨t', ht'⟩ := ih fun w hw => h w (List.mem_cons_of_mem a hw)
    refine ⟨a.num.toNat :: t', ?_⟩
    simp only [toIntWeights]
    rw [if_pos (h a (List.mem_cons_self a t)), ht']

/-- Evaluation of `solve_knapsack_01` on a valid instance (equal-length
lists, natural-number weights and capacity): the validation passes, and the
result is the early return or the DP value with the reconstructed
selection. -/
theorem solve_knapsack_eval (values : List ℚ) (weights : List ℕ) (capacity : ℕ)
    (hlen : values.length = weights.length) :
    solve_knapsack_01 values (weights.map (Nat.cast : ℕ → ℚ)) (capacity : ℚ) =
      if values.length = 0 ∨ capacity = 0 then .ok (0, [])
      else .ok (dp values weights values.length capacity,
                (selDesc values weights values.length capacity).reverse) := by
  unfold solve_knapsack_01
  rw [if_neg (by simp [hlen])]
  rw [if_neg (not_lt.mpr (by positivity))]
  by_cases h3 : values.length = 0 ∨ capacity = 0
  · rw [if_pos, if_pos h3]
    rcases h3 with h3 | h3
    · exact Or.inl h3
    · exact Or.inr (by exact_mod_cast congrArg (Nat.cast : ℕ → ℚ) h3)
  · push_neg at h3
    have hcond : ¬(values.length = 0 ∨ (capacity : ℚ) = 0) := by
      push_neg
      exact ⟨h3.1, Nat.cast_ne_zero.mpr h3.2⟩
    rw [if_neg hcond,
        if_neg (show ¬(values.length = 0 ∨ capacity = 0) by push_neg; exact h3)]
    have h4 : (weights.map (Nat.cast : ℕ → ℚ)).any (fun w => decide (w < 0)) = false := by
      simp only [List.any_eq_false]
      intro w hwm
      rcases List.mem_map.mp hwm with ⟨w', _, rfl⟩
      simp only [decide_eq_true_eq]
      exact not_lt.mpr (Nat.cast_nonneg w')
    rw [if_neg (show ¬((weights.map (Nat.cast : ℕ → ℚ)).any (fun w => decide (w < 0)) = true)
      by simp [h4])]
    rw [if_neg (show ¬((capacity : ℚ).den ≠ 1) by simp)]
    rw [toIntWeights_natCast]
    simp [List.length_map, hlen]

theorem selDesc_mem_lt (vals : List ℚ) (wts : List ℕ) :
    ∀ i w j, j ∈ selDesc vals wts i w → j < i := by
  intro i
  induction i with
  | zero => intro w j h; simp [selDesc] at h
  | succ i ih =>
    intro w j h
    simp only [selDesc] at h
    split at h
    · rcases List.mem_cons.mp h with rfl | h
      · omega
      · exact lt_trans (ih _ j h) (Nat.lt_succ_self i)
    · exact lt_trans (ih _ j h) (Nat.lt_succ_self i)

theorem selDesc_pairwise (vals : List ℚ) (wts : List ℕ) :
    ∀ i w, (selDesc vals wts i w).Pairwise (· > ·) := by
  intro i
  induction i with
  | zero => intro w; simp [selDesc]
  | succ i ih =>
    intro w
    simp only [selDesc]
    split
    · exact List.pairwise_cons.mpr ⟨fun j hj => selDesc_mem_lt vals wts i _ j hj, ih _⟩
    · exact ih w

theorem dp_ne_imp_wt_le (vals : List ℚ) (wts : List ℕ) (i w : ℕ)
    (h : dp vals wts (i + 1) w ≠ dp vals wts i w) : wts.getD i 0 ≤ w := by
  by_contra hw
  apply h
  show (let v := vals.getD i 0
        let wt := wts.getD i 0
        let best := dp vals wts i w
        if wt ≤ w then
          let cand := dp vals wts i (w - wt) + v
          if best < cand then cand else best
        else best) = dp vals wts i w
  simp only [if_neg hw]

theorem selDesc_weight (vals : List ℚ) (wts : List ℕ) :
    ∀ i w, ((selDesc vals wts i w).map fun j => wts.getD j 0).sum ≤ w := by
  intro i
  induction i with
  | zero => intro w; simp [selDesc]
  | succ i ih =>
    intro w
    simp only [selDesc]
    split
    · rename_i hne
      have hwt : wts.getD i 0 ≤ w := dp_ne_imp_wt_le vals wts i w hne
      have := ih (w - wts.getD i 0)
      simp only [List.map_cons, List.sum_cons]
      omega
    · exact ih w

/-! ### Claim theorems: C1, C4, C6 -/

/-- C1 (corrected): for every valid knapsack instance (equal-length
values/weights, natural-number weights and capacity) with a positive
capacity, the first component returned by `solve_knapsack_01` equals the
brute-force maximum over all subsets of items of total weight at most the
capacity.  (The restriction `0 < capacity` is forced: when `capacity = 0`
the function early-returns objective 0, which differs from the brute-force
maximum on zero-weight positive-value items, see
`solve_knapsack_01_zero_capacity_cex`.) -/
theorem solve_knapsack_01_objective (values : List ℚ) (weights : List ℕ)
    (capacity : ℕ) (hlen : values.length = weights.length)
    (hcap : 0 < capacity) :
    ∃ idxs, solve_knapsack_01 values (weights.map (Nat.cast : ℕ → ℚ)) (capacity : ℚ) =
      .ok (bruteForce (values.zip weights) capacity, idxs) := by
  rw [solve_knapsack_eval values weights capacity hlen]
  by_cases h0 : values.length = 0
  · refine ⟨[], ?_⟩
    rw [if_pos (Or.inl h0)]
    have hv : values = [] := List.length_eq_zero.mp h0
    subst hv
    simp [bruteForce, vsum, wsum, qmax]
  · rw [if_neg (by push_neg; exact ⟨h0, by omega⟩)]
    exact ⟨_, by rw [dp_eq_bruteForce values weights hlen capacity]⟩

/-- C1 counterexample: the claim fails as stated at the valid instance
`values = [5]`, `weights = [0]`, `capacity = 0`: the `capacity == 0` early
return yields objective 0 although the zero-weight item fits and the
brute-force maximum is 5. -/
theorem solve_knapsack_01_zero_capacity_cex :
    solve_knapsack_01 [(5 : ℚ)] ([0].map (Nat.cast : ℕ → ℚ)) ((0 : ℕ) : ℚ) = .ok (0, [])
    ∧ bruteForce ([(5 : ℚ)].zip [0]) 0 = 5 ∧ (0 : ℚ) ≠ 5 := by
  refine ⟨by decide, ?_, by norm_num⟩
  norm_num [bruteForce, vsum, wsum, qmax]

/-- C1 witness: the theorem applied to the concrete instance
`values=[3,4,5,6]`, `weights=[2,3,4,5]`, `capacity=5`. -/
theorem solve_knapsack_01_objective_witness :
    ∃ idxs, solve_knapsack_01 [(3 : ℚ), 4, 5, 6] ([2, 3, 4, 5].map (Nat.cast : ℕ → ℚ))
      ((5 : ℕ) : ℚ) = .ok (bruteForce ([(3 : ℚ), 4, 5, 6].zip [2, 3, 4, 5]) 5, idxs) :=
  solve_knapsack_01_objective [3, 4, 5, 6] [2, 3, 4, 5] 5 rfl (by decide)

/-- C6 (confirmed): on every valid knapsack instance the returned index list
is sorted strictly ascending and the total weight of the selected items is
at most the capacity. -/
theorem solve_knapsack_01_selection (values : List ℚ) (weights : List ℕ)
    (capacity : ℕ) (hlen : values.length = weights.length) (best : ℚ)
    (idxs : List ℕ)
    (h : solve_knapsack_01 values (weights.map (Nat.cast : ℕ → ℚ)) (capacity : ℚ) =
      .ok (best, idxs)) :
    idxs.Pairwise (· < ·) ∧ (idxs.map fun j => weights.getD j 0).sum ≤ capacity := by
  rw [solve_knapsack_eval values weights capacity hlen] at h
  split at h
  · have hidx : idxs = [] := by
      have := (Except.ok.injEq _ _).mp h
      exact (Prod.mk.injEq _ _ _ _).mp this |>.2.symm
    subst hidx
    simp
  · have hidx : idxs = (selDesc values weights values.length capacity).reverse := by
      have := (Except.ok.injEq _ _).mp h
      exact (Prod.mk.injEq _ _ _ _).mp this |>.2.symm
    subst hidx
    constructor
    · exact List.pairwise_reverse.mpr (selDesc_pairwise values weights _ _)
    · rw [List.map_reverse, List.sum_reverse]
      exact selDesc_weight values weights _ _

/-- C6 witness: the theorem applied to the concrete instance
`values=[3,4,5,6]`, `weights=[2,3,4,5]`, `capacity=5`, whose result is
`(7, [0, 1])`. -/
theorem solve_knapsack_01_selection_witness :
    ([0, 1] : List ℕ).Pairwise (· < ·)
    ∧ (([0, 1] : List ℕ).map fun j => [2, 3, 4, 5].getD j 0).sum ≤ 5 :=
  solve_knapsack_01_selection [3, 4, 5, 6] [2, 3, 4, 5] 5 rfl 7 [0, 1]
    (by norm_num [solve_knapsack_01, toIntWeights, dp, selDesc])

/-- C4 (corrected): a length mismatch always raises; when the item list is
non-empty and the capacity is non-zero (so the `n == 0 or capacity == 0`
early return is not taken), a negative weight raises, and a non-integral
capacity raises; and a well-formed instance with an integral (possibly
float, e.g. `3.0`) capacity is accepted. -/
theorem solve_knapsack_01_validation (values weights : List ℚ) (capacity : ℚ) :
    (values.length ≠ weights.length →
      (solve_knapsack_01 values weights capacity).isOk = false)
    ∧ (values.length = weights.length → values.length ≠ 0 → capacity ≠ 0 →
        (∃ w ∈ weights, w < 0) →
        (solve_knapsack_01 values weights capacity).isOk = false)
    ∧ (values.length = weights.length → values.length ≠ 0 → capacity ≠ 0 →
        (∀ w ∈ weights, ¬w < 0) → capacity.den ≠ 1 →
        (solve_knapsack_01 values weights capacity).isOk = false)
    ∧ (values.length = weights.length → 0 ≤ capacity → capacity.den = 1 →
        (∀ w ∈ weights, 0 ≤ w ∧ w.den = 1) →
        (solve_knapsack_01 values weights capacity).isOk = true) := by
  refine ⟨?_, ?_, ?_, ?_⟩
  · intro h
    unfold solve_knapsack_01
    rw [if_pos h]
    rfl
  · rintro hlen hn hc ⟨w, hw, hwneg⟩
    unfold solve_knapsack_01
    rw [if_neg (by simp [hlen])]
    by_cases hneg : capacity < 0
    · rw [if_pos hneg]; rfl
    · rw [if_neg hneg, if_neg (by push_neg; exact ⟨hn, hc⟩)]
      rw [if_pos (List.any_eq_true.mpr ⟨w, hw, decide_eq_true hwneg⟩)]
      rfl
  · intro hlen hn hc hnoneg hden
    unfold solve_knapsack_01
    rw [if_neg (by simp [hlen])]
    by_cases hneg : capacity < 0
    · rw [if_pos hneg]; rfl
    · rw [if_neg hneg, if_neg (by push_neg; exact ⟨hn, hc⟩)]
      rw [if_neg (by
        simp only [List.any_eq_true, not_exists]
        rintro w ⟨hw, hd⟩
        exact hnoneg w hw (of_decide_eq_true hd))]
      rw [if_pos hden]
      rfl
  · intro hlen hpos hden hws
    unfold solve_knapsack_01
    rw [if_neg (by simp [hlen]), if_neg (not_lt.mpr hpos)]
    by_cases h0 : values.length = 0 ∨ capacity = 0
    · rw [if_pos h0]; rfl
    · rw [if_neg h0]
      rw [if_neg (by
        simp only [List.any_eq_true, not_exists]
        rintro w ⟨hw, hd⟩
        exact absurd (of_decide_eq_true hd) (not_lt.mpr (hws w hw).1))]
      rw [if_neg (by simp [hden])]
      obtain ⟨t, ht⟩ := toIntWeights_ok weights fun w hw => (hws w hw).2
      rw [ht]
      rfl

/-- C4 counterexample: with `capacity = 0` the early return precedes the
negative-weight check, so `solve_knapsack_01([1], [-1], 0)` returns
`(0.0, [])` instead of raising. -/
theorem solve_knapsack_01_skips_validation_cex :
    solve_knapsack_01 [(1 : ℚ)] [-1] 0 = .ok (0, []) ∧ ((-1 : ℚ) < 0) := by
  decide

/-- C4 witness: the amended theorem applied to a non-integral capacity 7/2
(third conjunct) on a non-degenerate instance. -/
theorem solve_knapsack_01_validation_witness :
    (solve_knapsack_01 [(5 : ℚ)] [1] (⟨7, 2, by decide, by decide⟩ : ℚ)).isOk = false :=
  (solve_knapsack_01_validation [5] [1] ⟨7, 2, by decide, by decide⟩).2.2.1
    rfl (by decide) (by decide) (by decide) (by decide)

end Optees.Knapsack

namespace Optees.Milp

/-! ### Claim theorems: C10, C2 -/

/-- C10 (confirmed): on the CP-SAT route the packaged status is never
"Unbounded"; it is "Optimal" exactly for the optimal code, "Infeasible" for
the infeasible code and "NotSolved" for every other backend status code. -/
theorem pack_result_status (out : CpOut) (code : ℕ) (P : CanonProblem) :
    (_pack_result out code P).1 ≠ "Unbounded"
    ∧ (code = CP_OPTIMAL → (_pack_result out code P).1 = "Optimal")
    ∧ (code = CP_INFEASIBLE → (_pack_result out code P).1 = "Infeasible")
    ∧ (code ≠ CP_OPTIMAL → code ≠ CP_INFEASIBLE →
        (_pack_result out code P).1 = "NotSolved") := by
  unfold _pack_result
  by_cases h1 : code = CP_OPTIMAL
  · simp [h1, CP_OPTIMAL, CP_INFEASIBLE]
  · by_cases h2 : code = CP_INFEASIBLE
    · simp [h1, h2, CP_OPTIMAL, CP_INFEASIBLE]
    · simp [h1, h2]

/-- C10 witness: an unknown status code 7 packages as "NotSolved". -/
theorem pack_result_status_witness :
    (_pack_result ⟨0, []⟩ 7 Pcont).1 = "NotSolved" :=
  (pack_result_status ⟨0, []⟩ 7 Pcont).2.2.2 (by decide) (by decide)

/-- C2 (code bug): the CBC route packages the backend objective *without*
adding `obj_offset`, while the CP-SAT route (`_pack_result`) adds it.  On
`Pcont` (continuous variable, hence routed to CBC, offset 5) with the
backend reporting OPTIMAL and objective 0, the returned objective is 0, not
0 + 5. -/
theorem cbc_route_drops_obj_offset :
    routeOf Pcont = Backend.cbc
    ∧ cbcPack CBC_OPTIMAL 0 [0] Pcont = ("Optimal", some 0, [("x0", 0)])
    ∧ (0 : ℚ) ≠ 0 + Pcont.obj_offset
    ∧ (_pack_result ⟨0, []⟩ CP_OPTIMAL Pcont).2.1 = some (0 + Pcont.obj_offset) := by
  refine ⟨by decide, by decide, ?_, rfl⟩
  show (0 : ℚ) ≠ 0 + 5
  norm_num

/-! ### Claim theorem: C5 -/

theorem integ_cont_iff (t : Integ) :
    (!(t == Integ.B || t == Integ.I)) = true ↔ t = Integ.C := by
  cases t <;> simp

theorem pair_all_iff (b : Option ℚ × Option ℚ) :
    ((match b.1 with | none => true | some lv => _is_int_like lv) &&
     (match b.2 with | none => true | some uv => _is_int_like uv)) = true
    ↔ ∀ x ∈ b.1.toList ++ b.2.toList, _is_int_like x = true := by
  rcases b with ⟨l, u⟩
  cases l <;> cases u <;> simp

theorem all_data_integer_iff (P : CanonProblem)
    (he : P.A_eq.isSome = P.b_eq.isSome) (hu : P.A_ub.isSome = P.b_ub.isSome) :
    _all_data_integer P = true ↔ ∀ x ∈ problemData P, _is_int_like x = true := by
  have hc : P.c.all _is_int_like = true ↔ ∀ x ∈ P.c, _is_int_like x = true :=
    List.all_eq_true
  have hbnd : (P.bounds.all fun b =>
      (match b.1 with | none => true | some lv => _is_int_like lv) &&
      (match b.2 with | none => true | some uv => _is_int_like uv)) = true
      ↔ ∀ x ∈ P.bounds.flatMap (fun b => b.1.toList ++ b.2.toList),
          _is_int_like x = true := by
    rw [List.all_eq_true]
    simp only [List.mem_flatMap]
    constructor
    · rintro h x ⟨b, hb, hx⟩
      exact (pair_all_iff b).mp (h b hb) x hx
    · intro h b hb
      exact (pair_all_iff b).mpr fun x hx => h x ⟨b, hb, hx⟩
  have hmat : ∀ (A : List (List ℚ)),
      (A.all fun row => row.all _is_int_like) = true
      ↔ ∀ x ∈ A.flatMap id, _is_int_like x = true := by
    intro A
    rw [List.all_eq_true]
    simp only [List.mem_flatMap, id]
    constructor
    · rintro h x ⟨row, hrow, hx⟩
      exact List.all_eq_true.mp (h row hrow) x hx
    · intro h row hrow
      exact List.all_eq_true.mpr fun x hx => h x ⟨row, hrow, hx⟩
  have heqp : (match P.A_eq with
      | none => true
      | some A => (A.all fun row => row.all _is_int_like) &&
          (match P.b_eq with | none => true | some bv => bv.all _is_int_like)) = true
      ↔ (∀ x ∈ (P.A_eq.getD []).flatMap id, _is_int_like x = true)
        ∧ (∀ x ∈ P.b_eq.getD [], _is_int_like x = true) := by
    cases hae : P.A_eq with
    | none =>
      have hbe : P.b_eq = none := by
        cases hbe : P.b_eq
        · rfl
        · rw [hae, hbe] at he; simp at he
      simp [hbe]
    | some A =>
      obtain ⟨bv, hbe⟩ : ∃ bv, P.b_eq = some bv := by
        cases hbe : P.b_eq
        · rw [hae, hbe] at he; simp at he
        · exact ⟨_, rfl⟩
      rw [hbe]
      simp only [Option.getD_some, Bool.and_eq_true]
      rw [hmat A, List.all_eq_true]
  have hubp : (match P.A_ub with
      | none => true
      | some A => (A.all fun row => row.all _is_int_like) &&
          (match P.b_ub with | none => true | some bv => bv.all _is_int_like)) = true
      ↔ (∀ x ∈ (P.A_ub.getD []).flatMap id, _is_int_like x = true)
        ∧ (∀ x ∈ P.b_ub.getD [], _is_int_like x = true) := by
    cases hau : P.A_ub with
    | none =>
      have hbu : P.b_ub = none := by
        cases hbu : P.b_ub
        · rfl
        · rw [hau, hbu] at hu; simp at hu
      simp [hbu]
    | some A =>
      obtain ⟨bv, hbu⟩ : ∃ bv, P.b_ub = some bv := by
        cases hbu : P.b_ub
        · rw [hau, hbu] at hu; simp at hu
        · exact ⟨_, rfl⟩
      rw [hbu]
      simp only [Option.getD_some, Bool.and_eq_true]
      rw [hmat A, List.all_eq_true]
  unfold _all_data_integer problemData
  rw [Bool.and_eq_true, Bool.and_eq_true, Bool.and_eq_true]
  rw [hc, hbnd, heqp, hubp]
  simp only [List.forall_mem_append]
  tauto

/-- C5 (confirmed): `solve_milp` routes a normalized problem to the
continuous-capable backend (CBC) if and only if some integrality marker is
continuous (neither `'B'` nor `'I'`), or some objective coefficient, finite
bound, matrix coefficient or right-hand-side entry fails the 1e-9
integer-likeness check; otherwise it routes to the integer-only backend
(CP-SAT).  The two hypotheses are the matrix/rhs pairing invariants that
`_normalize` guarantees. -/
theorem routeOf_cbc_iff (P : CanonProblem)
    (he : P.A_eq.isSome = P.b_eq.isSome) (hu : P.A_ub.isSome = P.b_ub.isSome) :
    routeOf P = Backend.cbc ↔
      Integ.C ∈ P.integrality ∨ ∃ x ∈ problemData P, _is_int_like x = false := by
  have h0 : routeOf P = Backend.cbc ↔ _needs_cbc P = true := by
    unfold routeOf
    by_cases h : _needs_cbc P <;> simp [h]
  rw [h0]
  unfold _needs_cbc
  rw [Bool.or_eq_true]
  apply or_congr
  · rw [List.any_eq_true]
    constructor
    · rintro ⟨t, ht, hbt⟩
      exact (integ_cont_iff t).mp hbt ▸ ht
    · intro hC
      exact ⟨Integ.C, hC, by decide⟩
  · rw [show ((!_all_data_integer P) = true) ↔ ¬(_all_data_integer P = true) from
      by cases _all_data_integer P <;> simp]
    rw [all_data_integer_iff P he hu]
    constructor
    · intro hna
      by_contra hne
      push_neg at hne
      exact hna fun x hx => by
        cases hfx : _is_int_like x
        · exact absurd hfx (hne x hx)
        · rfl
    · rintro ⟨x, hx, hfx⟩ hall
      rw [hall x hx] at hfx
      exact Bool.noConfusion hfx

/-- C5 witness: the all-binary problem `Phalf` whose objective coefficient
1/2 is not integer-like is routed to CBC. -/
theorem routeOf_cbc_iff_witness : routeOf Phalf = Backend.cbc :=
  (routeOf_cbc_iff Phalf rfl rfl).mpr
    (Or.inr ⟨1 / 2, by simp [problemData, Phalf], by
      simp only [_is_int_like, decide_eq_false_iff_not]
      norm_num [round_eq]
      rw [abs_of_pos (by norm_num : (0 : ℚ) < 1 / 2)]
      norm_num⟩)

end Optees.Milp

namespace Optees.Milp

/-! ### Claim theorem: C7 -/

/-- C7 (corrected): whenever `_normalize` succeeds, the pre-flight
invariants hold — equivalently, violating any of them makes normalization
raise before any backend is touched.  Compared to the claim, the `var_names`
length condition only applies to a *non-empty* provided list (an empty list
is falsy in Python and silently replaced by the defaults,
`normalize_empty_var_names_cex`), and the sense condition applies to the
lowercased value with absent/`None`/empty falling back to `"min"`. -/
theorem normalize_ok_invariants (p : RawProblem) (P : CanonProblem)
    (h : _normalize p = .ok P) : normCheckSpec p = true := by
  unfold _normalize at h
  simp only [] at h
  split at h
  · exact absurd h (by simp)
  · rename_i hs
    split at h
    · exact absurd h (by simp)
    · rename_i hi
      split at h
      · exact absurd h (by simp)
      · rename_i integr heqTok
        split at h
        · exact absurd h (by simp)
        · rename_i bounds heqB
          split at h
          · exact absurd h (by simp)
          · rename_i hnames
            split at h
            · exact absurd h (by simp)
            · rename_i hxe
              split at h
              · exact absurd h (by simp)
              · rename_i hxu
                clear h
                unfold normCheckSpec
                simp only [Bool.and_eq_true]
                refine ⟨⟨⟨⟨⟨?_, ?_⟩, ?_⟩, ?_⟩, ?_⟩, ?_⟩
                · rcases not_and_or.mp hs with hs | hs <;>
                    simp [not_not.mp hs]
                · cases hI : p.integrality with
                  | none => simp
                  | some l =>
                    rw [hI, Option.getD_some] at hi
                    simp [not_not.mp (by simpa using hi)]
                · cases hB : p.bounds with
                  | none => simp
                  | some bl =>
                    rw [hB] at heqB
                    dsimp only [] at heqB ⊢
                    by_cases hbl : bl.length = p.c.length
                    · simp [hbl]
                    · rw [if_pos (by simpa using hbl)] at heqB
                      exact absurd heqB (by simp)
                · cases hV : p.var_names with
                  | none => simp
                  | some l =>
                    by_cases hl : l = []
                    · simp [hl]
                    · rw [hV] at hnames
                      simp only [if_neg hl] at hnames
                      simp [hl, not_not.mp (by simpa using hnames)]
                · simp [not_not.mp (by simpa using hxe)]
                · simp [not_not.mp (by simpa using hxu)]

/-- C7 counterexample: `var_names = []` has length 0 ≠ len(c) = 1, yet
normalization succeeds — the empty list is falsy and is replaced by the
default names. -/
theorem normalize_empty_var_names_cex :
    (_normalize rawEmptyVn).isOk = true
    ∧ rawEmptyVn.var_names = some []
    ∧ ([] : List String).length ≠ rawEmptyVn.c.length := by
  refine ⟨by decide, rfl, by decide⟩

/-- C7 witness: the invariants evaluated on a raw problem that normalizes
successfully. -/
theorem normalize_ok_invariants_witness : normCheckSpec rawEmptyVn = true :=
  normalize_ok_invariants rawEmptyVn
    { sense := "min", c := [1], integrality := [Integ.C],
      bounds := [(some 0, none)], var_names := ["x0"],
      A_eq := none, b_eq := none, A_ub := none, b_ub := none, obj_offset := 0 }
    (by decide)

end Optees.Milp

namespace Optees.Lpnetlib

/-! ### Claim theorems: C3, C8 -/

theorem countP_partition_identity {α : Type} (l : List α) (pe pl pg pf pr : α → Bool)
    (h : ∀ x ∈ l, ((if pe x then 1 else 0) + (if pl x then 1 else 0) + (if pg x then 1 else 0)
        + (if pf x then 1 else 0) : ℕ) = 1 + (if pr x then 1 else 0)) :
    l.countP pe + l.countP pl + l.countP pg + l.countP pf = l.length + l.countP pr := by
  induction l with
  | nil => simp
  | cons a t ih =>
    simp only [List.countP_cons, List.length_cons]
    have ha := h a (List.mem_cons_self a t)
    have ih2 := ih fun x hx => h x (List.mem_cons_of_mem a hx)
    omega

theorem row_pointwise (tol : ℚ) (a b : XR) :
    ((if rowIsEq tol a b then 1 else 0)
      + (if b.isFinite && !rowIsEq tol a b then 1 else 0)
      + (if a.isFinite && !rowIsEq tol a b then 1 else 0)
      + (if !a.isFinite && !b.isFinite then 1 else 0) : ℕ)
    = 1 + (if a.isFinite && b.isFinite && !rowIsEq tol a b then 1 else 0) := by
  cases he : rowIsEq tol a b <;>
    cases hlf : a.isFinite <;>
      cases hrf : b.isFinite <;>
        simp_all [rowIsEq]

/-- C3 (corrected): in the row-bound branch of `load_lpnetlib_mat`, the
equality set excludes the `<=` and `>=` sets, but the three sets are *not* a
partition of the rows: a two-sided non-equality (range) row belongs to both
the `<=` and the `>=` set and is emitted twice, and a row with no finite
bound belongs to no set and is emitted zero times.  The emitted row count
across `A_eq` and `A_ub` is therefore `m + #range - #free`, not `m`. -/
theorem load_row_partition (d : MatData) (tol : ℚ) (P : LPProblem)
    (hrows : d.rl.isSome = true ∨ d.ru.isSome = true)
    (h : load_lpnetlib_mat d tol = .ok P) :
    emittedRows P = (eqIdx d tol).length + (leIdx d tol).length + (geIdx d tol).length
    ∧ (eqIdx d tol).length + (leIdx d tol).length + (geIdx d tol).length + freeCount d
        = d.A.length + rangeCount d tol
    ∧ (∀ i ∈ eqIdx d tol, i ∉ leIdx d tol ∧ i ∉ geIdx d tol) := by
  have hcount : (eqIdx d tol).length + (leIdx d tol).length + (geIdx d tol).length
      + freeCount d = d.A.length + rangeCount d tol := by
    unfold eqIdx leIdx geIdx freeCount rangeCount
    rw [← List.countP_eq_length_filter, ← List.countP_eq_length_filter,
      ← List.countP_eq_length_filter]
    have := countP_partition_identity (List.range d.A.length)
      (fun i => rowIsEq tol ((rlVec d).getD i XR.ninf) ((ruVec d).getD i XR.pinf))
      (fun i => ((ruVec d).getD i XR.pinf).isFinite &&
        !rowIsEq tol ((rlVec d).getD i XR.ninf) ((ruVec d).getD i XR.pinf))
      (fun i => ((rlVec d).getD i XR.ninf).isFinite &&
        !rowIsEq tol ((rlVec d).getD i XR.ninf) ((ruVec d).getD i XR.pinf))
      (fun i => !((rlVec d).getD i XR.ninf).isFinite &&
        !((ruVec d).getD i XR.pinf).isFinite)
      (fun i => ((rlVec d).getD i XR.ninf).isFinite &&
        ((ruVec d).getD i XR.pinf).isFinite &&
        !rowIsEq tol ((rlVec d).getD i XR.ninf) ((ruVec d).getD i XR.pinf))
      (fun i _ => row_pointwise tol _ _)
    simpa [List.length_range] using this
  have hdisj : ∀ i ∈ eqIdx d tol, i ∉ leIdx d tol ∧ i ∉ geIdx d tol := by
    intro i hi
    rw [eqIdx, List.mem_filter] at hi
    constructor
    · rw [leIdx, List.mem_filter]
      rintro ⟨-, hcond⟩
      rw [Bool.and_eq_true] at hcond
      rw [hi.2] at hcond
      exact Bool.noConfusion hcond.2
    · rw [geIdx, List.mem_filter]
      rintro ⟨-, hcond⟩
      rw [Bool.and_eq_true] at hcond
      rw [hi.2] at hcond
      exact Bool.noConfusion hcond.2
  refine ⟨?_, hcount, hdisj⟩
  -- extract the A_eq / A_ub blocks from the successful load
  unfold load_lpnetlib_mat at h
  cases hc : loadCore d tol with
  | error e => rw [hc] at h; exact absurd h (by simp [Except.map])
  | ok P0 =>
    rw [hc] at h
    simp only [Except.map] at h
    have hP : P = { P0 with obj_offset := z0Offset d.z0 } :=
      ((Except.ok.injEq _ _).mp h).symm
    subst hP
    unfold loadCore at hc
    simp only [] at hc
    by_cases h1 : d.c.length ≠ d.n
    · rw [if_pos h1] at hc; exact absurd hc (by simp)
    · rw [if_neg h1] at hc
      by_cases h2 : (d.lo.getD (List.replicate d.n (XR.fin 0))).length ≠ d.n
          ∨ (d.hi.getD (List.replicate d.n XR.pinf)).length ≠ d.n
      · rw [if_pos h2] at hc; exact absurd hc (by simp)
      · rw [if_neg h2] at hc
        rw [if_pos hrows] at hc
        by_cases h3 : (rlVec d).length ≠ d.A.length ∨ (ruVec d).length ≠ d.A.length
        · rw [if_pos h3] at hc; exact absurd hc (by simp)
        · rw [if_neg h3] at hc
          have hP0 := (Except.ok.injEq _ _).mp hc
          subst hP0
          unfold emittedRows
          rcases Decidable.em (leIdx d tol = [] ∧ geIdx d tol = []) with hug | hug
          · rcases hug with ⟨hu1, hu2⟩
            by_cases heq : eqIdx d tol = [] <;>
              simp [heq, hu1, hu2]
          · by_cases heq : eqIdx d tol = []
            · simp [heq, hug]
            · simp [heq, hug]
              omega

end Optees.Lpnetlib

namespace Optees.Lpnetlib

/-- C3 counterexample: the free row of `dFree` (no finite bound) is in none
of the three sets and is emitted zero times, so the emitted row total is
0 ≠ m = 1; and the range row of `dRange` (both bounds finite, not equal) is
in both the `<=` and the `>=` set and is emitted twice, total 2 ≠ m = 1. -/
theorem load_row_partition_cex :
    (emittedOf (load_lpnetlib_mat dFree 0) = 0
      ∧ dFree.A.length = 1
      ∧ eqIdx dFree 0 = [] ∧ leIdx dFree 0 = [] ∧ geIdx dFree 0 = [])
    ∧ (emittedOf (load_lpnetlib_mat dRange 0) = 2
      ∧ dRange.A.length = 1
      ∧ eqIdx dRange 0 = [] ∧ leIdx dRange 0 = [0] ∧ geIdx dRange 0 = [0]) := by
  have hre : rowIsEq 0 (XR.fin 0) (XR.fin 5) = false := by
    simp only [rowIsEq, XR.isFinite, XR.val, Bool.true_and]
    norm_num
  constructor
  · exact ⟨by decide, by decide, by decide, by decide, by decide⟩
  · refine ⟨?_, by decide, ?_, ?_, ?_⟩
    · unfold load_lpnetlib_mat loadCore emittedOf
      simp [dRange, eqIdx, leIdx, geIdx, rlVec, ruVec, List.range_succ, hre,
        emittedRows, Except.map, XR.isFinite]
    · simp [eqIdx, dRange, rlVec, ruVec, List.range_succ, hre]
    · simp [leIdx, dRange, rlVec, ruVec, List.range_succ, hre, XR.isFinite]
    · simp [geIdx, dRange, rlVec, ruVec, List.range_succ, hre, XR.isFinite]

/-- C3 witness: the amended count identity evaluated on the one-row
equality instance `dEq` (one equality row emitted, no range or free
rows). -/
theorem load_row_partition_witness :
    emittedRows
        (LPProblem.mk "min" [1] [(some 0, none)] ["x0"]
          (some [[1]]) (some [3]) none none none)
      = (eqIdx dEq 0).length + (leIdx dEq 0).length + (geIdx dEq 0).length :=
  (load_row_partition dEq 0 _ (Or.inl (by decide)) (by
    have hre : rowIsEq 0 (XR.fin 3) (XR.fin 3) = true := by
      simp only [rowIsEq, XR.isFinite, XR.val, Bool.true_and]
      norm_num
    unfold load_lpnetlib_mat loadCore
    simp [dEq, eqIdx, leIdx, geIdx, rlVec, ruVec, List.range_succ, hre,
      Except.map, z0Offset]
    exact ⟨⟨⟨rfl, rfl⟩, rfl⟩, by decide, rfl⟩)).1

/-- C8 (confirmed): a present-but-malformed objective constant `z0` is
silently dropped — the load result is identical to the one with `z0` absent
(in particular `obj_offset` is omitted and nothing fails because of it) —
while a parseable `z0 = q` only changes the result by storing `obj_offset =
q`. -/
theorem z0_offset_behavior (d : MatData) (tol : ℚ) :
    load_lpnetlib_mat { d with z0 := some none } tol
      = load_lpnetlib_mat { d with z0 := none } tol
    ∧ (∀ q : ℚ, load_lpnetlib_mat { d with z0 := some (some q) } tol =
        (load_lpnetlib_mat { d with z0 := none } tol).map
          fun P => { P with obj_offset := some q })
    ∧ (∀ P, load_lpnetlib_mat { d with z0 := some none } tol = .ok P →
        P.obj_offset = none) := by
  have hcore : ∀ z, loadCore { d with z0 := z } tol = loadCore d tol := fun z => rfl
  refine ⟨?_, ?_, ?_⟩
  · unfold load_lpnetlib_mat
    rw [hcore (some none), hcore none]
    rfl
  · intro q
    unfold load_lpnetlib_mat
    rw [hcore (some (some q)), hcore none]
    cases loadCore d tol <;> rfl
  · intro P h
    unfold load_lpnetlib_mat at h
    rw [hcore (some none)] at h
    cases hc : loadCore d tol with
    | error e => rw [hc] at h; exact absurd h (by simp [Except.map])
    | ok P0 =>
      rw [hc] at h
      have := (Except.ok.injEq _ _).mp h
      rw [← this]
      rfl

/-- C8 witness: on the free-row instance, a malformed `z0` loads to the same
problem as an absent `z0`, with `obj_offset = none`. -/
theorem z0_offset_behavior_witness :
    load_lpnetlib_mat { dFree with z0 := some none } 0
      = load_lpnetlib_mat { dFree with z0 := none } 0 :=
  (z0_offset_behavior dFree 0).1

end Optees.Lpnetlib

namespace Optees.Solu

/-! ### Claim theorem: C9 -/

example : fallbackLine (fun _ => none) ["inst", "OPTIMAL"] =
    some ("inst", "optimal", none) := by decide

example : fallbackLine (fun _ => none) ["optimal"] = none := by decide

theorem reverse_findSome?_eq_filterMap_getLast? {α β : Type} (f : α → Option β)
    (l : List α) : l.reverse.findSome? f = (l.filterMap f).getLast? := by
  induction l using List.reverseRecOn with
  | nil => rfl
  | append_singleton t a ih =>
    rw [List.reverse_append, List.filterMap_append]
    simp only [List.reverse_cons, List.reverse_nil, List.nil_append,
      List.singleton_append, List.findSome?_cons]
    cases hfa : f a with
    | some b =>
      simp only [List.filterMap_cons, hfa, List.filterMap_nil]
      exact (List.getLast?_concat _).symm
    | none =>
      simp only [List.filterMap_cons, hfa, List.filterMap_nil, List.append_nil]
      exact ih

theorem take_getLast?_eq {α : Type} (l : List α) (i : ℕ) (h0 : 0 < i)
    (hlen : i ≤ l.length) : (l.take i).getLast? = l[i - 1]? := by
  rw [List.getLast?_eq_getElem?, List.length_take]
  rw [show min i l.length = i from by omega]
  exact List.getElem?_take_of_lt (by omega)

/-- C9 (confirmed): on any whitespace-split line (whose tokens are
non-empty, as `str.split()` guarantees) the permissive fallback of
`parse_miplib_solu` behaves exactly as the claim words it: it skips when no
token is in the status vocabulary or no adjacent name token exists, and
otherwise records the first status-vocabulary token (lowercased) as status,
the token immediately before it (else immediately after it) as name, and
the last `float`-parseable token as objective.  `parseNum` is the opaque
model of Python `float` parsing. -/
theorem fallbackLine_eq_spec (parseNum : String → Option ℚ) (parts : List String)
    (hne : ∀ t ∈ parts, t ≠ "") :
    fallbackLine parseNum parts = fallbackLineSpec parseNum parts := by
  unfold fallbackLine fallbackLineSpec
  cases hidx : parts.findIdx? (fun tok => STATUS_KEYS.contains (pyLower tok)) with
  | none => rfl
  | some idx =>
    obtain ⟨hlt, -, -⟩ := List.findIdx?_eq_some_iff_getElem.mp hidx
    simp only []
    by_cases h0 : 0 < idx
    · rw [if_pos h0]
      have e1 : (parts.take idx).getLast? = some (parts.getD (idx - 1) "") := by
        rw [take_getLast?_eq parts idx h0 (le_of_lt hlt)]
        rw [List.getElem?_eq_getElem (by omega), List.getD_eq_getElem parts "" (by omega)]
      rw [e1]
      have hnm : ¬parts.getD (idx - 1) "" = "" := by
        rw [List.getD_eq_getElem parts "" (by omega)]
        exact hne _ (List.getElem_mem _)
      simp only [Option.orElse]
      rw [if_neg hnm]
      rw [reverse_findSome?_eq_filterMap_getLast?]
    · rw [if_neg h0]
      have hidx0 : idx = 0 := by omega
      subst hidx0
      by_cases h1 : 0 + 1 < parts.length
      · rw [if_pos h1]
        have e2 : (parts.drop (0 + 1)).head? = some (parts.getD (0 + 1) "") := by
          rw [List.head?_drop, List.getElem?_eq_getElem h1,
            List.getD_eq_getElem parts "" h1]
        rw [List.take_zero, e2]
        have hnm : ¬parts.getD (0 + 1) "" = "" := by
          rw [List.getD_eq_getElem parts "" h1]
          exact hne _ (List.getElem_mem _)
        simp only [List.getLast?_nil, Option.orElse]
        rw [if_neg hnm]
        rw [reverse_findSome?_eq_filterMap_getLast?]
      · rw [if_neg h1]
        have e3 : (parts.drop (0 + 1)).head? = none := by
          rw [List.head?_drop]
          exact List.getElem?_eq_none (by omega)
        rw [List.take_zero, e3]
        rfl

/-- C9 witness: the theorem applied to a concrete three-token line with a
parser that accepts only the numeric token. -/
theorem fallbackLine_eq_spec_witness :
    fallbackLine (fun s => if s = "12" then some 12 else none)
        ["inst1", "optimal", "12"]
      = fallbackLineSpec (fun s => if s = "12" then some 12 else none)
        ["inst1", "optimal", "12"] :=
  fallbackLine_eq_spec _ _ (by decide)

end Optees.Solu
